import Mathlib

/-!
Verification development for the ConsVision Development Vulnerability Model
preprocessing scripts.

The definitions below are a shallow embedding of the urban-core construction
pipeline of procCensus.py (MakeUrbanCores, CategorizeCores, PrepBlocks) and of
the batch download and extraction helpers of Arc10_3/proc3DEP.py.

The geometry work delegated to the external ArcGIS toolkit (dissolve, select
by location, EliminatePolygonPart, buffer, multipart to singlepart, spatial
join) is modelled on a unit grid: a polygon is a finite set of grid cells,
each cell being a square of side 0.5 mile, hence of area 1/4 square mile.
Two cells whose squares share an edge or a corner are within distance 0 of
each other, which is the adjacency notion used by the selections with
WITHIN_A_DISTANCE of 0 meters.  A feature class is a finite set of records.
-/

attribute [local semireducible] Rat.mul Rat.add Rat.sub Rat.ofScientific

/-- A grid cell.  A polygon is a finite set of cells, each cell a square of
side 0.5 mile. -/
abbrev Cell : Type := Int × Int

/-- Area of one cell in square miles: cells have side 0.5 mile. -/
def cellAreaSqMi : ℚ := mkRat 1 4

theorem cellAreaSqMi_eq : cellAreaSqMi = 1 / 4 := by
  unfold cellAreaSqMi
  rw [Rat.mkRat_eq_div]
  norm_num

/-- Two cells touch: their squares share an edge or a corner, i.e. the
polygons are within distance 0 of each other. -/
def adj8 (a b : Cell) : Prop :=
  (a.1 - b.1).natAbs ≤ 1 ∧ (a.2 - b.2).natAbs ≤ 1

/-- Edge adjacency, used for connectivity of the complement when detecting
interior gaps (holes) of a region. -/
def adj4 (a b : Cell) : Prop :=
  (a.1 - b.1).natAbs + (a.2 - b.2).natAbs ≤ 1

instance adj8.decRel : DecidableRel adj8 := fun a b =>
  inferInstanceAs (Decidable ((a.1 - b.1).natAbs ≤ 1 ∧ (a.2 - b.2).natAbs ≤ 1))

instance adj4.decRel : DecidableRel adj4 := fun a b =>
  inferInstanceAs (Decidable ((a.1 - b.1).natAbs + (a.2 - b.2).natAbs ≤ 1))

theorem adj8_refl (a : Cell) : adj8 a a := by simp [adj8]

theorem adj8_symm {a b : Cell} (h : adj8 a b) : adj8 b a := by
  unfold adj8 at h ⊢
  omega

theorem adj4_refl (a : Cell) : adj4 a a := by simp [adj4]

theorem adj4_symm {a b : Cell} (h : adj4 a b) : adj4 b a := by
  unfold adj4 at h ⊢
  omega

/-- Canonical linear order on cells (lexicographic).  It only serves to fix a
deterministic processing order for multipart features, playing the role of
the toolkit's arbitrary but fixed OBJECTID order. -/
def cellLE (a b : Cell) : Prop := a.1 < b.1 ∨ (a.1 = b.1 ∧ a.2 ≤ b.2)

instance cellLE.decRel : DecidableRel cellLE := fun a b =>
  inferInstanceAs (Decidable (a.1 < b.1 ∨ (a.1 = b.1 ∧ a.2 ≤ b.2)))

instance cellLE.trans : IsTrans Cell cellLE where
  trans a b c hab hbc := by unfold cellLE at hab hbc ⊢; omega

instance cellLE.antisymm : IsAntisymm Cell cellLE where
  antisymm a b hab hba := by
    unfold cellLE at hab hba
    have h1 : a.1 = b.1 := by omega
    have h2 : a.2 = b.2 := by omega
    exact Prod.ext h1 h2

instance cellLE.total : IsTotal Cell cellLE where
  total a b := by unfold cellLE; omega

/-- One expansion pass at cell level: all cells of the region adjacent to the
current set. -/
def growStep (adj : Cell → Cell → Prop) [DecidableRel adj]
    (region s : Finset Cell) : Finset Cell :=
  region.filter (fun c => ∃ d ∈ s, adj c d)

/-- Iterated expansion with fuel, stopping early at a fixed point. -/
def growN (adj : Cell → Cell → Prop) [DecidableRel adj] (region : Finset Cell) :
    Nat → Finset Cell → Finset Cell
  | 0, s => s
  | n + 1, s =>
    if growStep adj region s = s then s
    else growN adj region n (growStep adj region s)

/-- Connected component of the cell c inside the region (empty when c lies
outside the region). -/
def component (adj : Cell → Cell → Prop) [DecidableRel adj]
    (region : Finset Cell) (c : Cell) : Finset Cell :=
  growN adj region region.card (region.filter (fun d => d = c))

/-- Reachability within a region along an adjacency relation. -/
def Reach (adj : Cell → Cell → Prop) (region : Finset Cell) : Cell → Cell → Prop :=
  Relation.ReflTransGen (fun x y => x ∈ region ∧ y ∈ region ∧ adj x y)

theorem mem_growStep {adj : Cell → Cell → Prop} [DecidableRel adj]
    {region s : Finset Cell} {c : Cell} :
    c ∈ growStep adj region s ↔ c ∈ region ∧ ∃ d ∈ s, adj c d := by
  unfold growStep
  exact Finset.mem_filter

theorem growStep_subset {adj : Cell → Cell → Prop} [DecidableRel adj]
    {region s : Finset Cell} : growStep adj region s ⊆ region :=
  Finset.filter_subset _ _

theorem subset_growStep {adj : Cell → Cell → Prop} [DecidableRel adj]
    (hrefl : ∀ a, adj a a) {region s : Finset Cell} (hs : s ⊆ region) :
    s ⊆ growStep adj region s := by
  intro c hc
  exact mem_growStep.mpr ⟨hs hc, c, hc, hrefl c⟩

theorem growN_subset {adj : Cell → Cell → Prop} [DecidableRel adj]
    {region : Finset Cell} :
    ∀ (n : Nat) (s : Finset Cell), s ⊆ region → growN adj region n s ⊆ region
  | 0, s, hs => hs
  | n + 1, s, hs => by
    unfold growN
    split
    · exact hs
    · exact growN_subset n _ growStep_subset

theorem subset_growN {adj : Cell → Cell → Prop} [DecidableRel adj]
    (hrefl : ∀ a, adj a a) {region : Finset Cell} :
    ∀ (n : Nat) (s : Finset Cell), s ⊆ region → s ⊆ growN adj region n s
  | 0, _, _ => Finset.Subset.refl _
  | n + 1, s, hs => by
    unfold growN
    split
    · exact Finset.Subset.refl _
    · exact (subset_growStep hrefl hs).trans
        (subset_growN hrefl n _ growStep_subset)

theorem growN_stable {adj : Cell → Cell → Prop} [DecidableRel adj]
    (hrefl : ∀ a, adj a a) {region : Finset Cell} :
    ∀ (n : Nat) (s : Finset Cell), s ⊆ region → region.card ≤ s.card + n →
      growStep adj region (growN adj region n s) = growN adj region n s
  | 0, s, hs, hn => by
    have hsr : s = region := Finset.eq_of_subset_of_card_le hs (by omega)
    show growStep adj region s = s
    rw [hsr]
    apply Finset.Subset.antisymm growStep_subset
    exact subset_growStep hrefl (Finset.Subset.refl _)
  | n + 1, s, hs, hn => by
    unfold growN
    split
    · assumption
    · rename_i hne
      apply growN_stable hrefl n _ growStep_subset
      have hlt : s.card < (growStep adj region s).card := by
        apply Finset.card_lt_card
        exact Finset.ssubset_iff_subset_ne.mpr
          ⟨subset_growStep hrefl hs, fun h => hne h.symm⟩
      omega

theorem growN_reach {adj : Cell → Cell → Prop} [DecidableRel adj]
    (hsymm : ∀ a b, adj a b → adj b a) {region : Finset Cell} {c : Cell} :
    ∀ (n : Nat) (s : Finset Cell), s ⊆ region →
      (∀ y ∈ s, Reach adj region c y) →
      ∀ x ∈ growN adj region n s, Reach adj region c x
  | 0, _, _, hy, x, hx => hy x hx
  | n + 1, s, hs, hy, x, hx => by
    unfold growN at hx
    split at hx
    · exact hy x hx
    · refine growN_reach hsymm n _ growStep_subset ?_ x hx
      intro y hy2
      rcases mem_growStep.mp hy2 with ⟨hyr, d, hds, hadj⟩
      exact Relation.ReflTransGen.tail (hy d hds) ⟨hs hds, hyr, hsymm _ _ hadj⟩

theorem component_subset {adj : Cell → Cell → Prop} [DecidableRel adj]
    {region : Finset Cell} {c : Cell} : component adj region c ⊆ region :=
  growN_subset _ _ (Finset.filter_subset _ _)

theorem mem_component_self {adj : Cell → Cell → Prop} [DecidableRel adj]
    (hrefl : ∀ a, adj a a) {region : Finset Cell} {c : Cell} (hc : c ∈ region) :
    c ∈ component adj region c := by
  apply subset_growN hrefl _ _ (Finset.filter_subset _ _)
  exact Finset.mem_filter.mpr ⟨hc, rfl⟩

theorem growStep_component {adj : Cell → Cell → Prop} [DecidableRel adj]
    (hrefl : ∀ a, adj a a) {region : Finset Cell} {c : Cell} :
    growStep adj region (component adj region c) = component adj region c := by
  apply growN_stable hrefl _ _ (Finset.filter_subset _ _)
  have := Finset.card_filter_le region (fun d => d = c)
  omega

theorem reach_of_mem_component {adj : Cell → Cell → Prop} [DecidableRel adj]
    (hsymm : ∀ a b, adj a b → adj b a) {region : Finset Cell} {c x : Cell}
    (hx : x ∈ component adj region c) : Reach adj region c x := by
  refine growN_reach hsymm _ _ (Finset.filter_subset _ _) ?_ x hx
  intro y hy
  rcases Finset.mem_filter.mp hy with ⟨_, hyc⟩
  subst hyc
  exact Relation.ReflTransGen.refl

theorem mem_component_of_reach {adj : Cell → Cell → Prop} [DecidableRel adj]
    (hrefl : ∀ a, adj a a) (hsymm : ∀ a b, adj a b → adj b a)
    {region : Finset Cell} {c x : Cell} (hc : c ∈ region)
    (h : Reach adj region c x) : x ∈ component adj region c := by
  induction h with
  | refl => exact mem_component_self hrefl hc
  | tail _ hstep ih =>
    rename_i b x _
    rw [← @growStep_component adj _ hrefl region c]
    exact mem_growStep.mpr ⟨hstep.2.1, b, ih, hsymm _ _ hstep.2.2⟩

theorem mem_component_iff {adj : Cell → Cell → Prop} [DecidableRel adj]
    (hrefl : ∀ a, adj a a) (hsymm : ∀ a b, adj a b → adj b a)
    {region : Finset Cell} {c x : Cell} (hc : c ∈ region) :
    x ∈ component adj region c ↔ Reach adj region c x :=
  ⟨reach_of_mem_component hsymm, mem_component_of_reach hrefl hsymm hc⟩

theorem reach_symm {adj : Cell → Cell → Prop}
    (hsymm : ∀ a b, adj a b → adj b a) {region : Finset Cell} {c x : Cell}
    (h : Reach adj region c x) : Reach adj region x c := by
  have hs : Symmetric (fun a b => a ∈ region ∧ b ∈ region ∧ adj a b) := by
    intro a b hab
    exact ⟨hab.2.1, hab.1, hsymm _ _ hab.2.2⟩
  exact Relation.ReflTransGen.symmetric hs h

theorem mem_region_of_reach {adj : Cell → Cell → Prop}
    {region : Finset Cell} {c x : Cell} (hc : c ∈ region)
    (h : Reach adj region c x) : x ∈ region := by
  induction h with
  | refl => exact hc
  | tail _ hstep _ => exact hstep.2.1

theorem component_congr {adj : Cell → Cell → Prop} [DecidableRel adj]
    (hrefl : ∀ a, adj a a) (hsymm : ∀ a b, adj a b → adj b a)
    {region : Finset Cell} {c x : Cell} (hc : c ∈ region)
    (hx : x ∈ component adj region c) :
    component adj region x = component adj region c := by
  have hcx : Reach adj region c x := reach_of_mem_component hsymm hx
  have hxr : x ∈ region := component_subset hx
  ext y
  rw [mem_component_iff hrefl hsymm hxr, mem_component_iff hrefl hsymm hc]
  constructor
  · exact fun h => Relation.ReflTransGen.trans hcx h
  · exact fun h => Relation.ReflTransGen.trans (reach_symm hsymm hcx) h

/-- Sorting is invariant under permutation of the input list. -/
theorem insertionSort_perm_eq (l1 l2 : List Cell) (h : l1 ≈ l2) :
    List.insertionSort cellLE l1 = List.insertionSort cellLE l2 := by
  have hp12 : List.Perm l1 l2 := h
  have hs1 : List.Sorted cellLE (List.insertionSort cellLE l1) :=
    List.sorted_insertionSort _ l1
  have hs2 : List.Sorted cellLE (List.insertionSort cellLE l2) :=
    List.sorted_insertionSort _ l2
  have hp : List.Perm (List.insertionSort cellLE l1) (List.insertionSort cellLE l2) :=
    (List.perm_insertionSort _ l1).trans
      (hp12.trans (List.perm_insertionSort _ l2).symm)
  exact List.eq_of_perm_of_sorted hp hs1 hs2

/-- Canonical listing of a finite cell set, in increasing cellLE order; it
plays the role of the toolkit's deterministic feature order. -/
def canonCells (s : Finset Cell) : List Cell :=
  Quot.liftOn s.val (fun l => List.insertionSort cellLE l) insertionSort_perm_eq

theorem mem_canonCells_val {c : Cell} :
    ∀ (m : Multiset Cell),
      c ∈ Quot.liftOn m (fun l => List.insertionSort cellLE l)
        insertionSort_perm_eq ↔ c ∈ m := by
  refine Quotient.ind ?_
  intro l
  simpa using (List.perm_insertionSort cellLE l).mem_iff

theorem mem_canonCells {s : Finset Cell} {c : Cell} :
    c ∈ canonCells s ↔ c ∈ s :=
  mem_canonCells_val s.val

/-- Worker for compsList: walks the canonically ordered cell list, emitting
the component of each cell not already covered by an earlier component. -/
def compsAux (adj : Cell → Cell → Prop) [DecidableRel adj] (region : Finset Cell) :
    List Cell → Finset Cell → List (Finset Cell)
  | [], _ => []
  | c :: rest, done =>
    if c ∈ done then compsAux adj region rest done
    else component adj region c ::
      compsAux adj region rest (done ∪ component adj region c)

/-- Connected parts of a region, in canonical order: the single-part features
produced by MultipartToSinglepart, listed in OBJECTID order. -/
def compsList (adj : Cell → Cell → Prop) [DecidableRel adj]
    (region : Finset Cell) : List (Finset Cell) :=
  compsAux adj region (canonCells region) ∅

theorem compsAux_sound {adj : Cell → Cell → Prop} [DecidableRel adj]
    {region : Finset Cell} :
    ∀ (l : List Cell) (done : Finset Cell), (∀ x ∈ l, x ∈ region) →
      ∀ K ∈ compsAux adj region l done, ∃ c ∈ region, K = component adj region c
  | [], _, _, K, hK => by simp [compsAux] at hK
  | c :: rest, done, hl, K, hK => by
    unfold compsAux at hK
    split at hK
    · exact compsAux_sound rest done (fun x hx => hl x (List.mem_cons_of_mem _ hx)) K hK
    · rcases List.mem_cons.mp hK with h | h
      · exact ⟨c, hl c (List.mem_cons_self _ _), h⟩
      · exact compsAux_sound rest _ (fun x hx => hl x (List.mem_cons_of_mem _ hx)) K h

theorem compsAux_cover {adj : Cell → Cell → Prop} [DecidableRel adj]
    (hrefl : ∀ a, adj a a) {region : Finset Cell} :
    ∀ (l : List Cell) (done : Finset Cell), (∀ x ∈ l, x ∈ region) →
      ∀ x ∈ l, x ∉ done → ∃ K ∈ compsAux adj region l done, x ∈ K
  | [], _, _, x, hx, _ => by simp at hx
  | c :: rest, done, hl, x, hx, hxd => by
    unfold compsAux
    split
    · rename_i hcd
      rcases List.mem_cons.mp hx with h | h
      · exact absurd (h ▸ hcd) hxd
      · exact compsAux_cover hrefl rest done
          (fun y hy => hl y (List.mem_cons_of_mem _ hy)) x h hxd
    · rcases List.mem_cons.mp hx with h | h
      · subst h
        exact ⟨component adj region x, List.mem_cons_self _ _,
          mem_component_self hrefl (hl x (List.mem_cons_self _ _))⟩
      · by_cases hx2 : x ∈ done ∪ component adj region c
        · refine ⟨component adj region c, List.mem_cons_self _ _, ?_⟩
          rcases Finset.mem_union.mp hx2 with h2 | h2
          · exact absurd h2 hxd
          · exact h2
        · rcases compsAux_cover hrefl rest _
            (fun y hy => hl y (List.mem_cons_of_mem _ hy)) x h hx2 with ⟨K, hK, hxK⟩
          exact ⟨K, List.mem_cons_of_mem _ hK, hxK⟩

theorem compsList_sound {adj : Cell → Cell → Prop} [DecidableRel adj]
    {region : Finset Cell} {K : Finset Cell} (hK : K ∈ compsList adj region) :
    ∃ c ∈ region, K = component adj region c :=
  compsAux_sound _ _ (fun x hx => mem_canonCells.mp hx) K hK

theorem compsList_cover {adj : Cell → Cell → Prop} [DecidableRel adj]
    (hrefl : ∀ a, adj a a) {region : Finset Cell} {x : Cell} (hx : x ∈ region) :
    ∃ K ∈ compsList adj region, x ∈ K :=
  compsAux_cover hrefl _ _ (fun y hy => mem_canonCells.mp hy) x
    (mem_canonCells.mpr hx) (Finset.not_mem_empty x)

/-- First index of a list element satisfying a predicate; models the result
of a one-to-one spatial join against an ordered feature list. -/
def firstIdx {α : Type} (p : α → Prop) [DecidablePred p] : List α → Option Nat
  | [] => none
  | a :: rest => if p a then some 0 else (firstIdx p rest).map (fun i => i + 1)

theorem firstIdx_spec {α : Type} {p : α → Prop} [DecidablePred p] :
    ∀ {l : List α} {i : Nat}, firstIdx p l = some i →
      ∃ a, l.get? i = some a ∧ p a
  | [], i, h => by simp [firstIdx] at h
  | a :: rest, i, h => by
    unfold firstIdx at h
    split at h
    · cases h
      exact ⟨a, rfl, by assumption⟩
    · rcases Option.map_eq_some'.mp h with ⟨j, hj, hji⟩
      rcases firstIdx_spec hj with ⟨b, hb, hpb⟩
      exact ⟨b, by simpa [← hji] using hb, hpb⟩

theorem firstIdx_min {α : Type} {p : α → Prop} [DecidablePred p] :
    ∀ {l : List α} {i : Nat}, firstIdx p l = some i →
      ∀ j b, l.get? j = some b → p b → i ≤ j
  | [], i, h, _, _, _, _ => by simp [firstIdx] at h
  | a :: rest, i, h, j, b, hj, hpb => by
    unfold firstIdx at h
    split at h
    · cases h
      omega
    · rcases Option.map_eq_some'.mp h with ⟨k, hk, hki⟩
      match j with
      | 0 =>
        rename_i hna
        simp at hj
        exact absurd (hj ▸ hpb) hna
      | j' + 1 =>
        have := firstIdx_min hk j' b (by simpa using hj) hpb
        omega

theorem firstIdx_lt_length {α : Type} {p : α → Prop} [DecidablePred p] :
    ∀ {l : List α} {i : Nat}, firstIdx p l = some i → i < l.length := by
  intro l i h
  rcases firstIdx_spec h with ⟨a, ha, _⟩
  exact List.get?_eq_some.mp ha |>.1

/-- A census block record: the attribute fields read by MakeUrbanCores, as
prepared by PrepBlocks, together with the block polygon as grid cells. -/
structure Block where
  GISJOIN : Nat
  POP : ℚ
  AREA_SQMI : ℚ
  DENS_PPSM : ℚ
  Shape_Area : ℚ
  SHP_IDX : ℚ
  IMPERV_MEAN : ℚ
  IMPERV20_MEAN : ℚ
  cells : List Cell
deriving DecidableEq

/-- Where clause of the seed selection, procCensus.py line 162:
DENS_PPSM >= 1000 AND Shape_Area >= 3600 (Shape_Area is in square meters). -/
def seedPred (b : Block) : Prop :=
  1000 ≤ b.DENS_PPSM ∧ 3600 ≤ b.Shape_Area

instance seedPred.dec : DecidablePred seedPred := fun b =>
  inferInstanceAs (Decidable (1000 ≤ b.DENS_PPSM ∧ 3600 ≤ b.Shape_Area))

/-- Where clause of the expansion layer, procCensus.py line 187:
(DENS_PPSM >= 500) OR (IMPERV_MEAN >= 20 AND SHP_IDX >= 0.185) OR
(IMPERV20_MEAN >= 0.33 AND SHP_IDX >= 0.185). -/
def expPred (b : Block) : Prop :=
  500 ≤ b.DENS_PPSM ∨ (20 ≤ b.IMPERV_MEAN ∧ 0.185 ≤ b.SHP_IDX) ∨
    (0.33 ≤ b.IMPERV20_MEAN ∧ 0.185 ≤ b.SHP_IDX)

instance expPred.dec : DecidablePred expPred := fun b =>
  inferInstanceAs (Decidable (500 ≤ b.DENS_PPSM ∨
    (20 ≤ b.IMPERV_MEAN ∧ 0.185 ≤ b.SHP_IDX) ∨
    (0.33 ≤ b.IMPERV20_MEAN ∧ 0.185 ≤ b.SHP_IDX)))

/-- Two blocks are within distance 0 of each other: their polygons touch. -/
def blockTouch (a b : Block) : Prop :=
  ∃ c ∈ a.cells, ∃ d ∈ b.cells, adj8 c d

instance blockTouch.dec : ∀ a b : Block, Decidable (blockTouch a b) := fun a b =>
  inferInstanceAs (Decidable (∃ c ∈ a.cells, ∃ d ∈ b.cells, adj8 c d))

/-- Layer lyr_PrimaryBlocks copied to coreBlocks, procCensus.py lines
162-165: the seed blocks. -/
def coreBlocks (blocks : Finset Block) : Finset Block :=
  blocks.filter seedPred

/-- Layer lyr_SecondaryBlocks, procCensus.py lines 187-189: the blocks
satisfying the expansion where clause. -/
def secondaryBlocks (blocks : Finset Block) : Finset Block :=
  blocks.filter expPred

/-- Initial NEW_SELECTION on lyr_SecondaryBlocks, procCensus.py lines
190-191: expansion-eligible blocks within distance 0 of coreBlocks. -/
def initialSelection (blocks : Finset Block) : Finset Block :=
  (secondaryBlocks blocks).filter (fun b => ∃ s ∈ coreBlocks blocks, blockTouch b s)

/-- One ADD_TO_SELECTION pass of the expansion loop, procCensus.py lines
198-199: the current selection plus the layer blocks within distance 0 of
the current selection. -/
def selStep (secondary sel : Finset Block) : Finset Block :=
  sel ∪ secondary.filter (fun b => ∃ s ∈ sel, blockTouch b s)

/-- While loop of procCensus.py lines 195-200, with fuel: the loop keeps
stepping while a pass strictly grows the selected count. -/
def selLoop (secondary : Finset Block) : Nat → Finset Block → Finset Block
  | 0, sel => sel
  | n + 1, sel =>
    if sel.card < (selStep secondary sel).card
    then selLoop secondary n (selStep secondary sel)
    else sel

/-- Final selection copied to expandCores, procCensus.py lines 192-201.
The entry guard compares the selected count against the count of the
coreBlocks feature class. -/
def expandCores (blocks : Finset Block) : Finset Block :=
  if (coreBlocks blocks).card < (initialSelection blocks).card
  then selLoop (secondaryBlocks blocks) (secondaryBlocks blocks).card
    (initialSelection blocks)
  else initialSelection blocks

/-- Dissolve_management of expandCores with MULTI_PART, procCensus.py line
209: the union of the selected block geometries. -/
def dissCores (blocks : Finset Block) : Finset Cell :=
  (expandCores blocks).biUnion (fun b => b.cells.toFinset)

/-- Bounding box of a region, expanded by one cell on every side. -/
def bboxCells (region : Finset Cell) : Finset Cell :=
  if h : region.Nonempty then
    Finset.product
      (Finset.Icc (region.inf' h (fun c => c.1) - 1) (region.sup' h (fun c => c.1) + 1))
      (Finset.Icc (region.inf' h (fun c => c.2) - 1) (region.sup' h (fun c => c.2) + 1))
  else ∅

/-- Interior gaps of a region: cells of the bounding box that are neither in
the region nor reachable (through edge-adjacent steps in the complement)
from the bounding box corner, which lies outside the region. -/
def holeCells (region : Finset Cell) : Finset Cell :=
  if h : region.Nonempty then
    (bboxCells region \ region) \
      component adj4 (bboxCells region \ region)
        (region.inf' h (fun c => c.1) - 1, region.inf' h (fun c => c.2) - 1)
  else ∅

/-- Cells lying in interior gaps whose gap has total area below the
threshold t (in square miles). -/
def smallHoleCells (region : Finset Cell) (t : ℚ) : Finset Cell :=
  (holeCells region).filter
    (fun c => ((component adj4 (holeCells region) c).card : ℚ) * cellAreaSqMi < t)

/-- EliminatePolygonPart_management with the AREA condition and option ANY,
procCensus.py line 214: interior gaps below the area threshold are filled,
and polygon parts below the threshold are dropped.  Part areas are measured
after gap filling. -/
def eliminatePolygonPart (region : Finset Cell) (t : ℚ) : Finset Cell :=
  (((compsList adj8 (region ∪ smallHoleCells region t)).filter
      (fun K => ¬ (K.card : ℚ) * cellAreaSqMi < t)).foldr (fun K acc => K ∪ acc) ∅)

/-- Output of the gap-and-runt removal step, procCensus.py lines 212-214:
EliminatePolygonPart on the dissolved cores with threshold 1 square mile. -/
def fillCores (blocks : Finset Block) : Finset Cell :=
  eliminatePolygonPart (dissCores blocks) 1

/-- The 0.25-mile buffer of one cell: all cells the buffer polygon overlaps.
Since cells have side 0.5 mile, the buffer reaches half a cell beyond the
cell square, overlapping the eight neighbours and the cell itself.  Two
polygons half a mile apart thus get touching buffers, which the dissolve
with option ALL then merges, exactly as 0.25-mile buffers do. -/
def cellBuffer (c : Cell) : Finset Cell :=
  Finset.product (Finset.Icc (c.1 - 1) (c.1 + 1)) (Finset.Icc (c.2 - 1) (c.2 + 1))

/-- Buffer_analysis with 0.25 Miles and dissolve option ALL, procCensus.py
line 223. -/
def buffCores (blocks : Finset Block) : Finset Cell :=
  (fillCores blocks).biUnion cellBuffer

/-- MultipartToSinglepart_management followed by the CORE_ID calculation,
procCensus.py lines 224-230: the connected parts of the buffered geometry in
canonical order; the part at list position k has OBJECTID and hence CORE_ID
k + 1. -/
def grpCores (blocks : Finset Block) : List (Finset Cell) :=
  compsList adj8 (buffCores blocks)

/-- Polygon containment: every cell of the polygon lies in the region. -/
def withinRegion (cs : List Cell) (region : Finset Cell) : Prop :=
  ∀ c ∈ cs, c ∈ region

instance withinRegion.dec : ∀ cs region, Decidable (withinRegion cs region) :=
  fun cs region => inferInstanceAs (Decidable (∀ c ∈ cs, c ∈ region))

/-- Selection of the blocks WITHIN fillCores and SpatialJoin_analysis to
grpCores with match option WITHIN, JOIN_ONE_TO_ONE and KEEP_COMMON,
procCensus.py lines 233-237: a block receives the CORE_ID of the group part
containing it, if any. -/
def coreAssign (blocks : Finset Block) (b : Block) : Option Nat :=
  if b ∈ blocks ∧ withinRegion b.cells (fillCores blocks) then
    (firstIdx (fun K => withinRegion b.cells K) (grpCores blocks)).map (fun i => i + 1)
  else none

/-- Constituent blocks of the output core with the given CORE_ID. -/
def blocksOfCore (blocks : Finset Block) (k : Nat) : Finset Block :=
  blocks.filter (fun b => coreAssign blocks b = some k)

/-- Dissolve_management of the joined blocks on CORE_ID with SUM of POP and
SUM of AREA_SQMI, procCensus.py lines 240-243: the output core table of
MakeUrbanCores, one row (CORE_ID, POP, AREA_SQMI) per core that contains at
least one joined block. -/
def MakeUrbanCores (blocks : Finset Block) : List (Nat × ℚ × ℚ) :=
  (List.range (grpCores blocks).length).filterMap (fun k =>
    if (blocksOfCore blocks (k + 1)).Nonempty then
      some (k + 1, (blocksOfCore blocks (k + 1)).sum (fun b => b.POP),
        (blocksOfCore blocks (k + 1)).sum (fun b => b.AREA_SQMI))
    else none)

/-- MakeUrbanCores on a feature list: a feature class is the set of its
records. -/
def MakeUrbanCoresL (l : List Block) : List (Nat × ℚ × ℚ) :=
  MakeUrbanCores l.toFinset

/-- Core assignment on a feature list. -/
def coreAssignL (l : List Block) (b : Block) : Option Nat :=
  coreAssign l.toFinset b

/-- A record of the cores table produced by MakeUrbanCores, as read by
CategorizeCores: CORE_ID with the summed POP and AREA_SQMI, plus the
CORE_TYPE field which CategorizeCores adds (absent before it runs). -/
structure CoreRec where
  CORE_ID : Nat
  POP : ℚ
  AREA_SQMI : ℚ
  CORE_TYPE : Option Int
deriving DecidableEq

/-- Code block catCores of CategorizeCores, procCensus.py lines 256-270. -/
def catCores (pop area : ℚ) : Int :=
  if pop < 2500 then
    if 1000 ≤ pop ∧ 1 ≤ area then 1
    else 0
  else if pop < 25000 then 2
  else if pop < 250000 then 3
  else if pop < 2500000 then 4
  else 5

/-- CategorizeCores, procCensus.py lines 250-273: adds the CORE_TYPE field
and calculates it from POP and AREA_SQMI on every row. -/
def CategorizeCores (cores : List CoreRec) : List CoreRec :=
  cores.map (fun c => { c with CORE_TYPE := some (catCores c.POP c.AREA_SQMI) })

/-- Outcome of the external calls made for one file inside the download loop
of BatchDownload: the urlopen/getcode result and the urlretrieve result. -/
inductive DlOutcome
  | notFound
  | ok
  | urlFail
  | retrieveFail
deriving DecidableEq

/-- One file to download, identified by its index in the file list, with the
recorded outcome of the external calls for it. -/
structure DlItem where
  name : Nat
  outcome : DlOutcome
deriving DecidableEq

/-- One procList entry of BatchDownload. -/
inductive DlLog
  | noExist (n : Nat)
  | success (n : Nat)
  | failed (n : Nat)
deriving DecidableEq

/-- Body of the download loop of BatchDownload, Arc10_3/proc3DEP.py lines
72-90: the whole body runs inside try/except, a 404 code yields a noExist
entry, a successful retrieval a success entry, and any exception is caught
and logged as a failed entry, after which iteration continues. -/
def downloadOne (it : DlItem) : DlLog :=
  match it.outcome with
  | DlOutcome.notFound => DlLog.noExist it.name
  | DlOutcome.ok => DlLog.success it.name
  | DlOutcome.urlFail => DlLog.failed it.name
  | DlOutcome.retrieveFail => DlLog.failed it.name

/-- BatchDownload, Arc10_3/proc3DEP.py lines 39-100: one procList entry per
file, in order, independent of failures of other files. -/
def BatchDownload (items : List DlItem) : List DlLog :=
  items.map downloadOne

/-- Outcome of the external calls made for one zip file inside the loop of
BatchExtractZips: the zipfile.is_zipfile check can itself raise (that call
is outside the inner try), report a non-zip, or succeed, after which
extraction can fail or succeed. -/
inductive ZipOutcome
  | checkRaises
  | notAZip
  | extractFails
  | extractOk
deriving DecidableEq

/-- One zip file, identified by index, with its recorded outcome. -/
structure ZipItem where
  name : Nat
  outcome : ZipOutcome
deriving DecidableEq

/-- One log entry of BatchExtractZips. -/
inductive ZipLog
  | extracted (n : Nat)
  | failedExtract (n : Nat)
  | notValid (n : Nat)
  | outerError
deriving DecidableEq

/-- BatchExtractZips, Arc10_3/proc3DEP.py lines 125-176.  The inner
try/except catches extraction failures per item and iteration continues; an
exception raised by the zipfile.is_zipfile check propagates to the
function-level except, which logs the error and abandons the remaining
items.  Returns the log entries and whether the loop ran to completion. -/
def BatchExtractZips : List ZipItem → List ZipLog × Bool
  | [] => ([], true)
  | it :: rest =>
    match it.outcome with
    | ZipOutcome.checkRaises => ([ZipLog.outerError], false)
    | ZipOutcome.notAZip =>
      (ZipLog.notValid it.name :: (BatchExtractZips rest).1, (BatchExtractZips rest).2)
    | ZipOutcome.extractFails =>
      (ZipLog.failedExtract it.name :: (BatchExtractZips rest).1, (BatchExtractZips rest).2)
    | ZipOutcome.extractOk =>
      (ZipLog.extracted it.name :: (BatchExtractZips rest).1, (BatchExtractZips rest).2)

/-- Mutation performed on a feature class or table by PrepBlocks; the trace
of mutations stands for the attribute-value changes they make, so a state
with an unchanged trace has every attribute value unchanged. -/
inductive FcOp
  | addField (fld : String)
  | calcField (fld : String)
  | joinField (fld : String)
  | alterField (old : String) (new : String)
  | addGeomArea
deriving DecidableEq

/-- A feature class or geodatabase table: its field list and the trace of
mutations applied to it. -/
structure FC where
  fields : List String
  trace : List FcOp
deriving DecidableEq

/-- AddField_management. -/
def AddField (fc : FC) (f : String) : FC :=
  ⟨fc.fields ++ [f], fc.trace ++ [FcOp.addField f]⟩

/-- CalculateField_management: recalculates values of an existing field. -/
def CalculateField (fc : FC) (f : String) : FC :=
  ⟨fc.fields, fc.trace ++ [FcOp.calcField f]⟩

/-- AlterField_management: renames a field. -/
def AlterField (fc : FC) (old : String) (new : String) : FC :=
  ⟨fc.fields.map (fun x => if x = old then new else x),
    fc.trace ++ [FcOp.alterField old new]⟩

/-- JoinField_management: appends one joined field. -/
def JoinField (fc : FC) (f : String) : FC :=
  ⟨fc.fields ++ [f], fc.trace ++ [FcOp.joinField f]⟩

/-- AddGeometryAttributes_management with the AREA option: appends the
POLY_AREA field. -/
def AddGeometryAttributes (fc : FC) : FC :=
  ⟨fc.fields ++ ["POLY_AREA"], fc.trace ++ [FcOp.addGeomArea]⟩

/-- The six derived fields PrepBlocks maintains on the blocks feature
class. -/
def prepFields : List String :=
  ["POP", "AREA_SQMI", "DENS_PPSM", "SHP_IDX", "IMPERV_MEAN", "IMPERV20_MEAN"]

/-- PrepBlocks, procCensus.py lines 29-144, on the feature-class model.  The
field list of the blocks feature class is read once at entry (line 53) and
each derived attribute is added and calculated only when its field is absent
from that list.  The zonal-statistics scratch tables are new datasets, not
part of the modelled state; printErr only logs (it does not raise).  Returns
the updated blocks feature class and population table. -/
def PrepBlocks (in_Blocks : FC) (in_PopTab : FC) (in_Year : Int) : FC × FC :=
  let bnames := in_Blocks.fields
  let tab :=
    if "POP" ∉ in_PopTab.fields then
      if in_Year = 2000 then AlterField in_PopTab "FXS001" "POP"
      else if in_Year = 2010 then CalculateField (AddField in_PopTab "POP") "POP"
      else in_PopTab
    else in_PopTab
  let b1 := if "POP" ∉ bnames then JoinField in_Blocks "POP" else in_Blocks
  let b2 :=
    if "AREA_SQMI" ∉ bnames then AlterField (AddGeometryAttributes b1) "POLY_AREA" "AREA_SQMI"
    else b1
  let b3 :=
    if "DENS_PPSM" ∉ bnames then CalculateField (AddField b2 "DENS_PPSM") "DENS_PPSM"
    else b2
  let b4 :=
    if "SHP_IDX" ∉ bnames then CalculateField (AddField b3 "SHP_IDX") "SHP_IDX"
    else b3
  let b5 :=
    if "IMPERV_MEAN" ∉ bnames then
      AlterField (AlterField (JoinField (JoinField b4 "MEAN") "MEDIAN") "MEAN" "IMPERV_MEAN")
        "MEDIAN" "IMPERV_MEDIAN"
    else b4
  let b6 :=
    if "IMPERV20_MEAN" ∉ bnames then AlterField (JoinField b5 "MEAN") "MEAN" "IMPERV20_MEAN"
    else b5
  (b6, tab)

theorem expPred_of_seedPred {b : Block} (h : seedPred b) : expPred b := by
  rcases h with ⟨h1, _⟩
  exact Or.inl (by linarith)

theorem blockTouch_self {b : Block} (h : b.cells ≠ []) : blockTouch b b := by
  rcases List.exists_mem_of_ne_nil b.cells h with ⟨c, hc⟩
  exact ⟨c, hc, c, hc, adj8_refl c⟩

theorem mem_selStep {secondary sel : Finset Block} {b : Block} :
    b ∈ selStep secondary sel ↔
      b ∈ sel ∨ (b ∈ secondary ∧ ∃ s ∈ sel, blockTouch b s) := by
  unfold selStep
  simp [Finset.mem_union, Finset.mem_filter]

theorem subset_selStep {secondary sel : Finset Block} : sel ⊆ selStep secondary sel :=
  Finset.subset_union_left

theorem selStep_subset {secondary sel : Finset Block} (h : sel ⊆ secondary) :
    selStep secondary sel ⊆ secondary :=
  Finset.union_subset h (Finset.filter_subset _ _)

theorem selStep_card_iff {secondary sel : Finset Block} :
    (selStep secondary sel).card = sel.card ↔ selStep secondary sel = sel := by
  constructor
  · intro h
    exact (Finset.eq_of_subset_of_card_le subset_selStep (le_of_eq h)).symm
  · intro h
    rw [h]

theorem selStep_self {secondary : Finset Block} :
    selStep secondary secondary = secondary :=
  Finset.union_eq_left.mpr (Finset.filter_subset _ _)

theorem selLoop_stable {secondary : Finset Block} :
    ∀ (n : Nat) (sel : Finset Block), sel ⊆ secondary →
      secondary.card ≤ sel.card + n →
      selStep secondary (selLoop secondary n sel) = selLoop secondary n sel
  | 0, sel, hs, hn => by
    have hsr : sel = secondary := Finset.eq_of_subset_of_card_le hs (by omega)
    show selStep secondary sel = sel
    rw [hsr]
    exact selStep_self
  | n + 1, sel, hs, hn => by
    unfold selLoop
    split
    · rename_i hlt
      exact selLoop_stable n _ (selStep_subset hs) (by omega)
    · rename_i hge
      have hle : (selStep secondary sel).card = sel.card :=
        Nat.le_antisymm (by omega) (Finset.card_le_card subset_selStep)
      exact selStep_card_iff.mp hle

theorem selLoop_subset {secondary : Finset Block} :
    ∀ (n : Nat) (sel : Finset Block), sel ⊆ secondary →
      selLoop secondary n sel ⊆ secondary
  | 0, sel, hs => hs
  | n + 1, sel, hs => by
    unfold selLoop
    split
    · exact selLoop_subset n _ (selStep_subset hs)
    · exact hs

theorem initialSelection_subset {blocks : Finset Block} :
    initialSelection blocks ⊆ secondaryBlocks blocks :=
  Finset.filter_subset _ _

theorem coreBlocks_subset_initialSelection {blocks : Finset Block}
    (hwf : ∀ b ∈ blocks, b.cells ≠ []) :
    coreBlocks blocks ⊆ initialSelection blocks := by
  intro b hb
  rcases Finset.mem_filter.mp hb with ⟨hbm, hbs⟩
  refine Finset.mem_filter.mpr ⟨?_, b, hb, blockTouch_self (hwf b hbm)⟩
  exact Finset.mem_filter.mpr ⟨hbm, expPred_of_seedPred hbs⟩

theorem expandCores_subset {blocks : Finset Block} :
    expandCores blocks ⊆ secondaryBlocks blocks := by
  unfold expandCores
  split
  · exact selLoop_subset _ _ initialSelection_subset
  · exact initialSelection_subset

theorem expandCores_stable {blocks : Finset Block}
    (hwf : ∀ b ∈ blocks, b.cells ≠ []) :
    selStep (secondaryBlocks blocks) (expandCores blocks) = expandCores blocks := by
  unfold expandCores
  split
  · exact selLoop_stable _ _ initialSelection_subset (by omega)
  · rename_i hge
    have hsub := coreBlocks_subset_initialSelection hwf
    have hcard : (initialSelection blocks).card ≤ (coreBlocks blocks).card := by omega
    have heq : coreBlocks blocks = initialSelection blocks :=
      Finset.eq_of_subset_of_card_le hsub hcard
    unfold selStep
    apply Finset.union_eq_left.mpr
    intro b hb
    rcases Finset.mem_filter.mp hb with ⟨hbs, s, hsm, hts⟩
    refine Finset.mem_filter.mpr ⟨hbs, s, ?_, hts⟩
    rw [← heq] at hsm
    exact hsm

theorem mem_dissCores {blocks : Finset Block} {c : Cell} :
    c ∈ dissCores blocks ↔ ∃ b ∈ expandCores blocks, c ∈ b.cells := by
  unfold dissCores
  simp [Finset.mem_biUnion, List.mem_toFinset]

theorem mem_foldr_union {L : List (Finset Cell)} {c : Cell} :
    c ∈ L.foldr (fun K acc => K ∪ acc) ∅ ↔ ∃ K ∈ L, c ∈ K := by
  induction L with
  | nil => simp
  | cons K rest ih => simp [Finset.mem_union, ih]

theorem mem_eliminatePolygonPart {region : Finset Cell} {t : ℚ} {c : Cell} :
    c ∈ eliminatePolygonPart region t ↔
      ∃ K ∈ compsList adj8 (region ∪ smallHoleCells region t),
        ¬ (K.card : ℚ) * cellAreaSqMi < t ∧ c ∈ K := by
  unfold eliminatePolygonPart
  rw [mem_foldr_union]
  constructor
  · rintro ⟨K, hK, hcK⟩
    rcases List.mem_filter.mp hK with ⟨hKl, hKp⟩
    exact ⟨K, hKl, by simpa using hKp, hcK⟩
  · rintro ⟨K, hKl, hKp, hcK⟩
    exact ⟨K, List.mem_filter.mpr ⟨hKl, by simpa using hKp⟩, hcK⟩

theorem eliminatePolygonPart_subset {region : Finset Cell} {t : ℚ} :
    eliminatePolygonPart region t ⊆ region ∪ smallHoleCells region t := by
  intro c hc
  rcases mem_eliminatePolygonPart.mp hc with ⟨K, hKl, _, hcK⟩
  rcases compsList_sound hKl with ⟨c0, _, hK0⟩
  exact component_subset (hK0 ▸ hcK)

theorem smallHoleCells_not_mem_region {region : Finset Cell} {t : ℚ} {c : Cell}
    (h : c ∈ smallHoleCells region t) : c ∉ region := by
  unfold smallHoleCells at h
  have h2 := Finset.mem_filter.mp h |>.1
  unfold holeCells at h2
  split at h2
  · have := Finset.mem_sdiff.mp h2 |>.1
    exact (Finset.mem_sdiff.mp this).2
  · simp at h2

theorem coreAssign_some {blocks : Finset Block} {b : Block} {k : Nat}
    (h : coreAssign blocks b = some k) :
    b ∈ blocks ∧ withinRegion b.cells (fillCores blocks) ∧
      ∃ i, k = i + 1 ∧
        firstIdx (fun K => withinRegion b.cells K) (grpCores blocks) = some i := by
  unfold coreAssign at h
  split at h
  · rename_i hg
    rcases Option.map_eq_some'.mp h with ⟨i, hi, hik⟩
    exact ⟨hg.1, hg.2, i, hik.symm, hi⟩
  · cases h

theorem mem_cellBuffer {c d : Cell} :
    d ∈ cellBuffer c ↔ (c.1 - d.1).natAbs ≤ 1 ∧ (c.2 - d.2).natAbs ≤ 1 := by
  unfold cellBuffer
  rw [show (Finset.Icc (c.1 - 1) (c.1 + 1)).product (Finset.Icc (c.2 - 1) (c.2 + 1)) =
    Finset.Icc (c.1 - 1) (c.1 + 1) ×ˢ Finset.Icc (c.2 - 1) (c.2 + 1) from rfl]
  rw [Finset.mem_product]
  simp only [Finset.mem_Icc]
  omega

theorem self_mem_cellBuffer (c : Cell) : c ∈ cellBuffer c :=
  mem_cellBuffer.mpr ⟨by omega, by omega⟩

theorem fillCores_subset_buffCores {blocks : Finset Block} :
    fillCores blocks ⊆ buffCores blocks := by
  intro c hc
  exact Finset.mem_biUnion.mpr ⟨c, hc, self_mem_cellBuffer c⟩

theorem mem_buffCores_of_near {blocks : Finset Block} {c m : Cell}
    (hc : c ∈ fillCores blocks) (hx : (c.1 - m.1).natAbs ≤ 1)
    (hy : (c.2 - m.2).natAbs ≤ 1) : m ∈ buffCores blocks :=
  Finset.mem_biUnion.mpr ⟨c, hc, mem_cellBuffer.mpr ⟨hx, hy⟩⟩

theorem component_buff_eq_of_near {blocks : Finset Block} {c1 c2 : Cell}
    (h1 : c1 ∈ fillCores blocks) (h2 : c2 ∈ fillCores blocks)
    (hx : (c1.1 - c2.1).natAbs ≤ 2) (hy : (c1.2 - c2.2).natAbs ≤ 2) :
    component adj8 (buffCores blocks) c1 = component adj8 (buffCores blocks) c2 := by
  have hb1 : c1 ∈ buffCores blocks := fillCores_subset_buffCores h1
  have hb2 : c2 ∈ buffCores blocks := fillCores_subset_buffCores h2
  have hm : ((c1.1 + c2.1) / 2, (c1.2 + c2.2) / 2) ∈ buffCores blocks :=
    mem_buffCores_of_near h1 (by omega) (by omega)
  have hadj1 : adj8 c1 ((c1.1 + c2.1) / 2, (c1.2 + c2.2) / 2) := by
    show (c1.1 - (c1.1 + c2.1) / 2).natAbs ≤ 1 ∧
      (c1.2 - (c1.2 + c2.2) / 2).natAbs ≤ 1
    omega
  have hadj2 : adj8 ((c1.1 + c2.1) / 2, (c1.2 + c2.2) / 2) c2 := by
    show ((c1.1 + c2.1) / 2 - c2.1).natAbs ≤ 1 ∧
      ((c1.2 + c2.2) / 2 - c2.2).natAbs ≤ 1
    omega
  have hreach : Reach adj8 (buffCores blocks) c1 c2 :=
    Relation.ReflTransGen.tail
      (Relation.ReflTransGen.single ⟨hb1, hm, hadj1⟩) ⟨hm, hb2, hadj2⟩
  have h12 : c2 ∈ component adj8 (buffCores blocks) c1 :=
    mem_component_of_reach adj8_refl (fun a b => adj8_symm) hb1 hreach
  exact (component_congr adj8_refl (fun a b => adj8_symm) hb1 h12).symm

theorem coreAssign_eq_of_same_component {blocks : Finset Block} {b1 b2 : Block}
    {k1 k2 : Nat} (h1 : coreAssign blocks b1 = some k1)
    (h2 : coreAssign blocks b2 = some k2) {c1 c2 : Cell}
    (hc1 : c1 ∈ b1.cells) (hc2 : c2 ∈ b2.cells)
    (hcomp : component adj8 (buffCores blocks) c1 =
      component adj8 (buffCores blocks) c2) : k1 = k2 := by
  rcases coreAssign_some h1 with ⟨_, hw1, i1, hk1, hf1⟩
  rcases coreAssign_some h2 with ⟨_, hw2, i2, hk2, hf2⟩
  rcases firstIdx_spec hf1 with ⟨K1, hget1, hp1⟩
  rcases firstIdx_spec hf2 with ⟨K2, hget2, hp2⟩
  rcases compsList_sound (List.get?_mem hget1) with ⟨r1, hr1, hK1⟩
  rcases compsList_sound (List.get?_mem hget2) with ⟨r2, hr2, hK2⟩
  have hc1K : c1 ∈ K1 := hp1 c1 hc1
  have hc2K : c2 ∈ K2 := hp2 c2 hc2
  have he1 : component adj8 (buffCores blocks) c1 = K1 := by
    rw [hK1] at hc1K ⊢
    exact component_congr adj8_refl (fun a b => adj8_symm) hr1 hc1K
  have he2 : component adj8 (buffCores blocks) c2 = K2 := by
    rw [hK2] at hc2K ⊢
    exact component_congr adj8_refl (fun a b => adj8_symm) hr2 hc2K
  have hKK : K1 = K2 := by rw [← he1, ← he2, hcomp]
  have hle1 : i1 ≤ i2 := firstIdx_min hf1 i2 K2 hget2 (hKK ▸ hp1)
  have hle2 : i2 ≤ i1 := firstIdx_min hf2 i1 K1 hget1 (hKK ▸ hp2)
  omega

/-- Ring example: four high-density seed blocks forming a closed ring of
eight cells (area 2 square miles) around a single low-density block of one
cell (area 1/4 square mile), which therefore sits in an interior gap below
the 1 square mile threshold. -/
def exRingB : Block := ⟨1, 100, 2, 2000, 3600, 1, 0, 0, [(0, 0), (1, 0), (2, 0)]⟩

/-- Top edge of the ring example. -/
def exRingT : Block := ⟨2, 100, 2, 2000, 3600, 1, 0, 0, [(0, 2), (1, 2), (2, 2)]⟩

/-- West edge of the ring example. -/
def exRingW : Block := ⟨3, 100, 1, 2000, 3600, 1, 0, 0, [(0, 1)]⟩

/-- East edge of the ring example. -/
def exRingE : Block := ⟨4, 100, 1, 2000, 3600, 1, 0, 0, [(2, 1)]⟩

/-- Center block of the ring example: population 7, density 0, no
imperviousness; it satisfies neither the seed nor the expansion criteria. -/
def exCenter : Block := ⟨5, 7, 1, 0, 3600, 0, 0, 0, [(1, 1)]⟩

/-- The ring example feature class. -/
def exRingBlocks : Finset Block :=
  [exRingB, exRingT, exRingW, exRingE, exCenter].toFinset

/-- Two-squares example: two seed blocks of four cells each (area 1 square
mile each), separated by a one-cell gap, so their 0.25-mile buffers meet. -/
def exSqA : Block := ⟨11, 2000, 1, 1500, 3600, 1, 0, 0, [(0, 0), (1, 0), (0, 1), (1, 1)]⟩

/-- Second square of the two-squares example. -/
def exSqB : Block := ⟨12, 2000, 1, 1500, 3600, 1, 0, 0, [(3, 0), (4, 0), (3, 1), (4, 1)]⟩

/-- The two-squares example feature class. -/
def exSqBlocks : Finset Block := [exSqA, exSqB].toFinset

/-- One-block example: a single seed block of four cells. -/
def exSq : Block := ⟨21, 50, 1, 1200, 4000, 1, 0, 0, [(0, 0), (1, 0), (0, 1), (1, 1)]⟩

/-- The one-block example feature class. -/
def exOne : Finset Block := [exSq].toFinset

/-- C5: a census block is selected as a seed for urban-core construction if
and only if its population density DENS_PPSM is at least 1000 persons per
square mile and its polygon area Shape_Area is at least 3600 square meters,
which is the area of four 30-meter pixels, guarding against spurious
single-pixel cores (procCensus.py lines 160-165). -/
theorem coreBlocks_seed_criteria :
    (∀ (blocks : Finset Block) (b : Block),
      b ∈ coreBlocks blocks ↔
        b ∈ blocks ∧ 1000 ≤ b.DENS_PPSM ∧ 3600 ≤ b.Shape_Area) ∧
    (3600 : ℚ) = 4 * (30 * 30) := by
  constructor
  · intro blocks b
    simp [coreBlocks, seedPred, Finset.mem_filter]
  · norm_num

/-- C6: a census block is eligible for core expansion if and only if
DENS_PPSM >= 500, or IMPERV_MEAN >= 20 and SHP_IDX >= 0.185, or
IMPERV20_MEAN >= 0.33 and SHP_IDX >= 0.185 (procCensus.py lines 187-189;
the identical where clause appears in Arc10_3/procCensus.py MakeUrbanCores2);
every block added by a selection pass beyond the current selection satisfies
this predicate, and the final expandCores selection lies inside the
expansion layer. -/
theorem secondaryBlocks_expansion_criteria :
    (∀ (blocks : Finset Block) (b : Block),
      b ∈ secondaryBlocks blocks ↔
        b ∈ blocks ∧ (500 ≤ b.DENS_PPSM ∨
          (20 ≤ b.IMPERV_MEAN ∧ 0.185 ≤ b.SHP_IDX) ∨
          (0.33 ≤ b.IMPERV20_MEAN ∧ 0.185 ≤ b.SHP_IDX))) ∧
    (∀ (blocks sel : Finset Block) (b : Block),
      b ∈ selStep (secondaryBlocks blocks) sel → b ∈ sel ∨ expPred b) ∧
    (∀ blocks : Finset Block, expandCores blocks ⊆ secondaryBlocks blocks) := by
  refine ⟨?_, ?_, fun blocks => expandCores_subset⟩
  · intro blocks b
    simp [secondaryBlocks, expPred, Finset.mem_filter]
  · intro blocks sel b hb
    rcases mem_selStep.mp hb with h | ⟨hs, _⟩
    · exact Or.inl h
    · exact Or.inr (Finset.mem_filter.mp hs).2

/-- C3: the expansion loop of MakeUrbanCores terminates: each pass only adds
blocks (monotone growth), the selection stays inside the expansion layer
(bounded above by the number of expansion-eligible blocks), the final
expandCores selection is a fixed point of the selection pass, and a pass
leaves the selected count unchanged exactly when it adds no new block
(procCensus.py lines 192-201). -/
theorem expandCores_fixpoint (blocks : Finset Block)
    (hwf : ∀ b ∈ blocks, b.cells ≠ []) :
    (∀ sel : Finset Block, sel ⊆ selStep (secondaryBlocks blocks) sel) ∧
    (∀ sel : Finset Block, sel ⊆ secondaryBlocks blocks →
      selStep (secondaryBlocks blocks) sel ⊆ secondaryBlocks blocks) ∧
    expandCores blocks ⊆ secondaryBlocks blocks ∧
    selStep (secondaryBlocks blocks) (expandCores blocks) = expandCores blocks ∧
    (∀ sel : Finset Block,
      (selStep (secondaryBlocks blocks) sel).card = sel.card ↔
        selStep (secondaryBlocks blocks) sel = sel) :=
  ⟨fun _ => subset_selStep, fun _ hs => selStep_subset hs, expandCores_subset,
    expandCores_stable hwf, fun _ => selStep_card_iff⟩

/-- Witness for expandCores_fixpoint at the ring example. -/
theorem expandCores_fixpoint_witness :
    (∀ b ∈ exRingBlocks, b.cells ≠ []) ∧
    selStep (secondaryBlocks exRingBlocks) (expandCores exRingBlocks) =
      expandCores exRingBlocks :=
  ⟨by decide, (expandCores_fixpoint exRingBlocks (by decide)).2.2.2.1⟩

/-- C4: the spatial join with JOIN_ONE_TO_ONE attaches at most one CORE_ID
to each census block, so the constituent block sets of two distinct output
cores are disjoint (procCensus.py lines 232-241). -/
theorem coreAssign_unique :
    (∀ (blocks : Finset Block) (b : Block) (i j : Nat),
      coreAssign blocks b = some i → coreAssign blocks b = some j → i = j) ∧
    (∀ (blocks : Finset Block) (i j : Nat), i ≠ j →
      Disjoint (blocksOfCore blocks i) (blocksOfCore blocks j)) := by
  constructor
  · intro blocks b i j hi hj
    rw [hi] at hj
    exact Option.some.inj hj
  · intro blocks i j hij
    rw [Finset.disjoint_left]
    intro b hbi hbj
    rcases Finset.mem_filter.mp hbi with ⟨_, hi⟩
    rcases Finset.mem_filter.mp hbj with ⟨_, hj⟩
    rw [hi] at hj
    exact hij (Option.some.inj hj)

set_option maxRecDepth 40000 in
/-- Witness for coreAssign_unique at the one-block example. -/
theorem coreAssign_unique_witness :
    coreAssign exOne exSq = some 1 ∧ (1 : Nat) = 1 ∧ (1 : Nat) ≠ 2 ∧
    Disjoint (blocksOfCore exOne 1) (blocksOfCore exOne 2) :=
  ⟨by decide, coreAssign_unique.1 exOne exSq 1 1 (by decide) (by decide),
    by decide, coreAssign_unique.2 exOne 1 2 (by decide)⟩

/-- C7: the post-processing of the dissolved cores (procCensus.py lines
206-230): (i) a cell of an interior gap with area below the threshold is
filled into the core geometry, provided the filled part around it is not
itself dropped as a below-threshold runt by the ANY option; (ii) blocks
joined through parts of the gap-filled geometry lying within 0.25 mile of
one another (cells at most two apart, so the buffers meet) receive the same
group ID; (iii) every assigned group ID is one of the sequential OBJECTID
positions 1..n of the grouped parts. -/
theorem postprocessing_gap_buffer_ids :
    (∀ (region : Finset Cell) (t : ℚ) (c : Cell),
      c ∈ smallHoleCells region t →
      ¬ ((component adj8 (region ∪ smallHoleCells region t) c).card : ℚ) *
        cellAreaSqMi < t →
      c ∈ eliminatePolygonPart region t) ∧
    (∀ (blocks : Finset Block) (b1 b2 : Block) (k1 k2 : Nat) (c1 c2 : Cell),
      coreAssign blocks b1 = some k1 → coreAssign blocks b2 = some k2 →
      c1 ∈ b1.cells → c2 ∈ b2.cells →
      (c1.1 - c2.1).natAbs ≤ 2 → (c1.2 - c2.2).natAbs ≤ 2 → k1 = k2) ∧
    (∀ (blocks : Finset Block) (b : Block) (k : Nat),
      coreAssign blocks b = some k → 1 ≤ k ∧ k ≤ (grpCores blocks).length) := by
  refine ⟨?_, ?_, ?_⟩
  · intro region t c hc hbig
    have hcf : c ∈ region ∪ smallHoleCells region t := Finset.mem_union_right _ hc
    rcases compsList_cover adj8_refl hcf with ⟨K, hKl, hcK⟩
    rcases compsList_sound hKl with ⟨c0, hc0, hK⟩
    have hcomp : component adj8 (region ∪ smallHoleCells region t) c = K := by
      rw [hK] at hcK ⊢
      exact component_congr adj8_refl (fun a b => adj8_symm) hc0 hcK
    refine mem_eliminatePolygonPart.mpr ⟨K, hKl, ?_, hcK⟩
    rw [← hcomp]
    exact hbig
  · intro blocks b1 b2 k1 k2 c1 c2 h1 h2 hc1 hc2 hx hy
    have hw1 := (coreAssign_some h1).2.1
    have hw2 := (coreAssign_some h2).2.1
    exact coreAssign_eq_of_same_component h1 h2 hc1 hc2
      (component_buff_eq_of_near (hw1 c1 hc1) (hw2 c2 hc2) hx hy)
  · intro blocks b k hk
    rcases coreAssign_some hk with ⟨_, _, i, hik, hf⟩
    have := firstIdx_lt_length hf
    unfold grpCores at this ⊢
    omega

set_option maxRecDepth 100000 in
/-- Witness for postprocessing_gap_buffer_ids: the ring example exercises
the gap filling (the hole cell satisfies the hypotheses of the first
conjunct and indeed survives into the EliminatePolygonPart output), the
two-squares example the buffer grouping and the sequential IDs. -/
theorem postprocessing_gap_buffer_ids_witness :
    ((1, 1) : Cell) ∈ smallHoleCells (dissCores exRingBlocks) 1 ∧
    ¬ ((component adj8 (dissCores exRingBlocks ∪
        smallHoleCells (dissCores exRingBlocks) 1) ((1, 1) : Cell)).card : ℚ) *
      cellAreaSqMi < 1 ∧
    ((1, 1) : Cell) ∈ eliminatePolygonPart (dissCores exRingBlocks) 1 ∧
    coreAssign exSqBlocks exSqA = some 1 ∧
    coreAssign exSqBlocks exSqB = some 1 ∧
    (1 : Nat) = 1 ∧ 1 ≤ 1 ∧ 1 ≤ (grpCores exSqBlocks).length := by
  have hA : coreAssign exSqBlocks exSqA = some 1 := by decide
  have hB : coreAssign exSqBlocks exSqB = some 1 := by decide
  have hsame : (1 : Nat) = 1 :=
    postprocessing_gap_buffer_ids.2.1 exSqBlocks exSqA exSqB 1 1 (1, 0) (3, 0)
      hA hB (by decide) (by decide) (by decide) (by decide)
  have hrange : 1 ≤ 1 ∧ 1 ≤ (grpCores exSqBlocks).length :=
    postprocessing_gap_buffer_ids.2.2 exSqBlocks exSqA 1 hA
  exact ⟨by decide, by decide, by decide, hA, hB, hsame, hrange⟩

/-- C1 (amended): a census block whose population and area are summed into an
output core either satisfies the expansion predicate (which subsumes the
seed predicate, since density at least 1000 implies density at least 500),
or — when block geometries are pairwise disjoint, as census blocks are —
lies entirely inside interior gaps of the dissolved cores that were filled
because their area is below 1 square mile. -/
theorem coreAssign_expPred_or_filled_gap (blocks : Finset Block)
    (hdisj : ∀ b1 ∈ blocks, ∀ b2 ∈ blocks, b1 ≠ b2 → ∀ c ∈ b1.cells, c ∉ b2.cells)
    (b : Block) (k : Nat) (hk : coreAssign blocks b = some k) :
    expPred b ∨ ∀ c ∈ b.cells, c ∈ smallHoleCells (dissCores blocks) 1 := by
  by_cases hexp : expPred b
  · exact Or.inl hexp
  · refine Or.inr (fun c hc => ?_)
    rcases coreAssign_some hk with ⟨hbm, hw, _⟩
    have hcf : c ∈ fillCores blocks := hw c hc
    have hcu : c ∈ dissCores blocks ∪ smallHoleCells (dissCores blocks) 1 :=
      eliminatePolygonPart_subset hcf
    rcases Finset.mem_union.mp hcu with hcd | hch
    · exfalso
      rcases mem_dissCores.mp hcd with ⟨b2, hb2, hcb2⟩
      have hb2s : b2 ∈ secondaryBlocks blocks := expandCores_subset hb2
      rcases Finset.mem_filter.mp hb2s with ⟨hb2m, hb2e⟩
      have hne : b2 ≠ b := fun h => hexp (h ▸ hb2e)
      exact hdisj b2 hb2m b hbm hne c hcb2 hc
    · exact hch

set_option maxRecDepth 100000 in
/-- Witness for coreAssign_expPred_or_filled_gap: in the ring example the
center block is joined to core 1. -/
theorem coreAssign_expPred_or_filled_gap_witness :
    (∀ b1 ∈ exRingBlocks, ∀ b2 ∈ exRingBlocks, b1 ≠ b2 →
      ∀ c ∈ b1.cells, c ∉ b2.cells) ∧
    coreAssign exRingBlocks exCenter = some 1 ∧
    (expPred exCenter ∨
      ∀ c ∈ exCenter.cells, c ∈ smallHoleCells (dissCores exRingBlocks) 1) := by
  have hd : ∀ b1 ∈ exRingBlocks, ∀ b2 ∈ exRingBlocks, b1 ≠ b2 →
      ∀ c ∈ b1.cells, c ∉ b2.cells := by decide
  have hk : coreAssign exRingBlocks exCenter = some 1 := by decide
  exact ⟨hd, hk, coreAssign_expPred_or_filled_gap exRingBlocks hd exCenter 1 hk⟩

set_option maxRecDepth 100000 in
/-- C1 counterexample: in the ring example, the low-density center block is
joined to core 1 and its population (7) and area (1) are summed into the
output row (CORE_ID 1, POP 407, AREA_SQMI 7), although it satisfies neither
the expansion predicate nor the seed predicate; the claim that every block
summed into an output core satisfies the expansion predicate or belongs to
the seed set is therefore false. -/
theorem makeUrbanCores_gap_block_counterexample :
    MakeUrbanCores exRingBlocks = [(1, 407, 7)] ∧
    exCenter ∈ blocksOfCore exRingBlocks 1 ∧
    exCenter.POP = 7 ∧ exCenter.AREA_SQMI = 1 ∧
    ¬ expPred exCenter ∧ ¬ seedPred exCenter := by
  refine ⟨by decide, by decide, rfl, rfl, by decide, by decide⟩

theorem catCores_eq_zero_iff (pop area : ℚ) :
    catCores pop area = 0 ↔ pop < 1000 ∨ (pop < 2500 ∧ area < 1) := by
  unfold catCores
  split_ifs with h1 h2 h3 h4 h5
  · constructor
    · intro hh
      exact absurd hh (by decide)
    · intro hh
      exfalso
      rcases hh with hh | ⟨_, hh⟩ <;> linarith [h2.1, h2.2]
  · constructor
    · intro _
      rcases not_and_or.mp h2 with h | h
      · exact Or.inl (by linarith [not_le.mp h])
      · exact Or.inr ⟨h1, by linarith [not_le.mp h]⟩
    · intro _
      rfl
  · constructor
    · intro hh
      exact absurd hh (by decide)
    · intro hh
      exfalso
      rcases hh with hh | ⟨hh, _⟩ <;> linarith
  · constructor
    · intro hh
      exact absurd hh (by decide)
    · intro hh
      exfalso
      rcases hh with hh | ⟨hh, _⟩ <;> linarith
  · constructor
    · intro hh
      exact absurd hh (by decide)
    · intro hh
      exfalso
      rcases hh with hh | ⟨hh, _⟩ <;> linarith
  · constructor
    · intro hh
      exact absurd hh (by decide)
    · intro hh
      exfalso
      rcases hh with hh | ⟨hh, _⟩ <;> linarith

theorem catCores_eq_one_iff (pop area : ℚ) :
    catCores pop area = 1 ↔ 1000 ≤ pop ∧ pop < 2500 ∧ 1 ≤ area := by
  unfold catCores
  split_ifs with h1 h2 h3 h4 h5
  · exact ⟨fun _ => ⟨h2.1, h1, h2.2⟩, fun _ => rfl⟩
  · constructor
    · intro hh
      exact absurd hh (by decide)
    · intro hh
      exact absurd ⟨hh.1, hh.2.2⟩ h2
  · constructor
    · intro hh
      exact absurd hh (by decide)
    · intro hh
      exact absurd hh.2.1 (by linarith)
  · constructor
    · intro hh
      exact absurd hh (by decide)
    · intro hh
      exact absurd hh.2.1 (by linarith)
  · constructor
    · intro hh
      exact absurd hh (by decide)
    · intro hh
      exact absurd hh.2.1 (by linarith)
  · constructor
    · intro hh
      exact absurd hh (by decide)
    · intro hh
      exact absurd hh.2.1 (by linarith)

theorem catCores_eq_two_iff (pop area : ℚ) :
    catCores pop area = 2 ↔ 2500 ≤ pop ∧ pop < 25000 := by
  unfold catCores
  split_ifs with h1 h2 h3 h4 h5
  · constructor
    · intro hh
      exact absurd hh (by decide)
    · intro hh
      exact absurd hh.1 (by linarith)
  · constructor
    · intro hh
      exact absurd hh (by decide)
    · intro hh
      exact absurd hh.1 (by linarith)
  · exact ⟨fun _ => ⟨by linarith [not_lt.mp h1], h3⟩, fun _ => rfl⟩
  · constructor
    · intro hh
      exact absurd hh (by decide)
    · intro hh
      exact absurd hh.2 h3
  · constructor
    · intro hh
      exact absurd hh (by decide)
    · intro hh
      exact absurd hh.2 h3
  · constructor
    · intro hh
      exact absurd hh (by decide)
    · intro hh
      exact absurd hh.2 h3

theorem catCores_eq_three_iff (pop area : ℚ) :
    catCores pop area = 3 ↔ 25000 ≤ pop ∧ pop < 250000 := by
  unfold catCores
  split_ifs with h1 h2 h3 h4 h5
  · constructor
    · intro hh
      exact absurd hh (by decide)
    · intro hh
      exact absurd hh.1 (by linarith)
  · constructor
    · intro hh
      exact absurd hh (by decide)
    · intro hh
      exact absurd hh.1 (by linarith)
  · constructor
    · intro hh
      exact absurd hh (by decide)
    · intro hh
      exact absurd hh.1 (by linarith)
  · exact ⟨fun _ => ⟨by linarith [not_lt.mp h3], h4⟩, fun _ => rfl⟩
  · constructor
    · intro hh
      exact absurd hh (by decide)
    · intro hh
      exact absurd hh.2 h4
  · constructor
    · intro hh
      exact absurd hh (by decide)
    · intro hh
      exact absurd hh.2 h4

theorem catCores_eq_four_iff (pop area : ℚ) :
    catCores pop area = 4 ↔ 250000 ≤ pop ∧ pop < 2500000 := by
  unfold catCores
  split_ifs with h1 h2 h3 h4 h5
  · constructor
    · intro hh
      exact absurd hh (by decide)
    · intro hh
      exact absurd hh.1 (by linarith)
  · constructor
    · intro hh
      exact absurd hh (by decide)
    · intro hh
      exact absurd hh.1 (by linarith)
  · constructor
    · intro hh
      exact absurd hh (by decide)
    · intro hh
      exact absurd hh.1 (by linarith)
  · constructor
    · intro hh
      exact absurd hh (by decide)
    · intro hh
      exact absurd hh.1 (by linarith)
  · exact ⟨fun _ => ⟨by linarith [not_lt.mp h4], h5⟩, fun _ => rfl⟩
  · constructor
    · intro hh
      exact absurd hh (by decide)
    · intro hh
      exact absurd hh.2 h5

theorem catCores_eq_five_iff (pop area : ℚ) :
    catCores pop area = 5 ↔ 2500000 ≤ pop := by
  unfold catCores
  split_ifs with h1 h2 h3 h4 h5
  · constructor
    · intro hh
      exact absurd hh (by decide)
    · intro hh
      linarith
  · constructor
    · intro hh
      exact absurd hh (by decide)
    · intro hh
      linarith
  · constructor
    · intro hh
      exact absurd hh (by decide)
    · intro hh
      linarith
  · constructor
    · intro hh
      exact absurd hh (by decide)
    · intro hh
      linarith
  · constructor
    · intro hh
      exact absurd hh (by decide)
    · intro hh
      linarith
  · exact ⟨fun _ => by linarith [not_lt.mp h5], fun _ => rfl⟩

/-- C2: CategorizeCores computes CORE_TYPE for every core row as a pure
function catCores of POP and AREA_SQMI, and catCores matches the six-way
table exactly at each boundary: class 0 iff POP below 1000 or POP below 2500
with area below 1 square mile; class 1 iff POP in 1000 to 2500 exclusive
with area at least 1; class 2 iff POP in 2500 to 25000; class 3 iff POP in
25000 to 250000; class 4 iff POP in 250000 to 2500000; class 5 iff POP at
least 2500000; in particular POP 2500 gives class 2 and POP 1000 with area
1 gives class 1 (procCensus.py lines 250-273). -/
theorem catCores_classification :
    (∀ (cores : List CoreRec) (r : CoreRec), r ∈ CategorizeCores cores →
      ∃ c ∈ cores, r.POP = c.POP ∧ r.AREA_SQMI = c.AREA_SQMI ∧
        r.CORE_TYPE = some (catCores c.POP c.AREA_SQMI)) ∧
    (∀ pop area : ℚ,
      (catCores pop area = 0 ↔ (pop < 1000 ∨ (pop < 2500 ∧ area < 1))) ∧
      (catCores pop area = 1 ↔ (1000 ≤ pop ∧ pop < 2500 ∧ 1 ≤ area)) ∧
      (catCores pop area = 2 ↔ (2500 ≤ pop ∧ pop < 25000)) ∧
      (catCores pop area = 3 ↔ (25000 ≤ pop ∧ pop < 250000)) ∧
      (catCores pop area = 4 ↔ (250000 ≤ pop ∧ pop < 2500000)) ∧
      (catCores pop area = 5 ↔ 2500000 ≤ pop)) ∧
    catCores 2500 0 = 2 ∧ catCores 1000 1 = 1 := by
  refine ⟨?_, ?_, by decide, by decide⟩
  · intro cores r hr
    rcases List.mem_map.mp hr with ⟨c, hcm, hrc⟩
    refine ⟨c, hcm, ?_, ?_, ?_⟩ <;> rw [← hrc]
  · intro pop area
    exact ⟨catCores_eq_zero_iff pop area, catCores_eq_one_iff pop area,
      catCores_eq_two_iff pop area, catCores_eq_three_iff pop area,
      catCores_eq_four_iff pop area, catCores_eq_five_iff pop area⟩

/-- C8: MakeUrbanCores is a deterministic function of the set of input block
records: running the grower on two feature orders of the same blocks (same
attribute values, hence the same derived spatial adjacency) yields the same
core assignment for every block and the same output core table, so the same
partition of blocks into output groups. -/
theorem makeUrbanCores_perm_invariant (l1 l2 : List Block) (h : l1.Perm l2) :
    coreAssignL l1 = coreAssignL l2 ∧ MakeUrbanCoresL l1 = MakeUrbanCoresL l2 := by
  have ht : l1.toFinset = l2.toFinset := List.toFinset_eq_of_perm l1 l2 h
  constructor
  · funext b
    unfold coreAssignL
    rw [ht]
  · unfold MakeUrbanCoresL
    rw [ht]

/-- Witness for makeUrbanCores_perm_invariant on the two feature orders of
the two-squares example. -/
theorem makeUrbanCores_perm_invariant_witness :
    [exSqA, exSqB].Perm [exSqB, exSqA] ∧
    coreAssignL [exSqA, exSqB] = coreAssignL [exSqB, exSqA] ∧
    MakeUrbanCoresL [exSqA, exSqB] = MakeUrbanCoresL [exSqB, exSqA] := by
  have hp : [exSqA, exSqB].Perm [exSqB, exSqA] := by decide
  exact ⟨hp, (makeUrbanCores_perm_invariant [exSqA, exSqB] [exSqB, exSqA] hp).1,
    (makeUrbanCores_perm_invariant [exSqA, exSqB] [exSqB, exSqA] hp).2⟩

/-- C9 (amended): BatchDownload logs exactly one entry per file, in order,
whatever the outcome of each file, so one failed download never aborts the
batch; in BatchExtractZips the per-item inner try/except likewise isolates
extraction failures, but only as long as no zipfile.is_zipfile check raises:
the check runs outside the inner try, so such an exception falls through to
the function-level handler, which ends the loop and abandons the remaining
items. -/
theorem batch_per_item_isolation :
    (∀ items : List DlItem, (BatchDownload items).length = items.length ∧
      ∀ i : Nat, (BatchDownload items).get? i = (items.get? i).map downloadOne) ∧
    (∀ items : List ZipItem, (∀ it ∈ items, it.outcome ≠ ZipOutcome.checkRaises) →
      (BatchExtractZips items).2 = true ∧
      (BatchExtractZips items).1.length = items.length) := by
  constructor
  · intro items
    exact ⟨List.length_map _ _, fun i => List.get?_map downloadOne items i⟩
  · intro items h
    induction items with
    | nil => exact ⟨rfl, rfl⟩
    | cons it rest ih =>
      have hit := h it (List.mem_cons_self _ _)
      have hrest := ih (fun x hx => h x (List.mem_cons_of_mem _ hx))
      obtain ⟨n, outc⟩ := it
      cases outc with
      | checkRaises => exact absurd rfl hit
      | notAZip =>
        exact ⟨hrest.1, by simp [BatchExtractZips, hrest.2]⟩
      | extractFails =>
        exact ⟨hrest.1, by simp [BatchExtractZips, hrest.2]⟩
      | extractOk =>
        exact ⟨hrest.1, by simp [BatchExtractZips, hrest.2]⟩

/-- Witness for batch_per_item_isolation: a failing download and a failing
extraction in the middle of a batch do not stop the later items. -/
theorem batch_per_item_isolation_witness :
    BatchDownload [⟨0, DlOutcome.retrieveFail⟩, ⟨1, DlOutcome.ok⟩] =
      [DlLog.failed 0, DlLog.success 1] ∧
    (BatchDownload [⟨0, DlOutcome.retrieveFail⟩, ⟨1, DlOutcome.ok⟩]).length = 2 ∧
    (∀ it ∈ [ZipItem.mk 0 ZipOutcome.extractFails, ZipItem.mk 1 ZipOutcome.extractOk],
      it.outcome ≠ ZipOutcome.checkRaises) ∧
    (BatchExtractZips [⟨0, ZipOutcome.extractFails⟩, ⟨1, ZipOutcome.extractOk⟩]).2 = true ∧
    (BatchExtractZips [⟨0, ZipOutcome.extractFails⟩,
      ⟨1, ZipOutcome.extractOk⟩]).1.length = 2 := by
  have hno : ∀ it ∈ [ZipItem.mk 0 ZipOutcome.extractFails, ZipItem.mk 1 ZipOutcome.extractOk],
      it.outcome ≠ ZipOutcome.checkRaises := by decide
  refine ⟨by decide, ?_, hno, ?_, ?_⟩
  · exact (batch_per_item_isolation.1 [⟨0, DlOutcome.retrieveFail⟩, ⟨1, DlOutcome.ok⟩]).1
  · exact (batch_per_item_isolation.2 _ hno).1
  · exact (batch_per_item_isolation.2 _ hno).2

/-- C9 counterexample: when the zipfile.is_zipfile check raises on the first
item, BatchExtractZips logs only the function-level error and never
processes the second item, so a single item failure can abort the batch. -/
theorem batchExtractZips_abort_counterexample :
    BatchExtractZips [⟨0, ZipOutcome.checkRaises⟩, ⟨1, ZipOutcome.extractOk⟩] =
      ([ZipLog.outerError], false) ∧
    ZipLog.extracted 1 ∉
      (BatchExtractZips [⟨0, ZipOutcome.checkRaises⟩, ⟨1, ZipOutcome.extractOk⟩]).1 ∧
    (BatchExtractZips [⟨0, ZipOutcome.checkRaises⟩,
      ⟨1, ZipOutcome.extractOk⟩]).1.length = 1 := by
  refine ⟨rfl, by decide, rfl⟩

/-- C10: PrepBlocks reads the field list of the blocks feature class once at
entry and computes each derived attribute only when the corresponding field
is absent; on a feature class that already carries POP, AREA_SQMI,
DENS_PPSM, SHP_IDX, IMPERV_MEAN and IMPERV20_MEAN, rerunning PrepBlocks
performs no field additions, recalculations or renames on it and leaves it,
and hence every attribute value, unchanged. -/
theorem prepBlocks_noop (bl tab : FC) (year : Int)
    (h : ∀ f ∈ prepFields, f ∈ bl.fields) :
    (PrepBlocks bl tab year).1 = bl := by
  have hP : "POP" ∈ bl.fields := h "POP" (by simp [prepFields])
  have hA : "AREA_SQMI" ∈ bl.fields := h "AREA_SQMI" (by simp [prepFields])
  have hD : "DENS_PPSM" ∈ bl.fields := h "DENS_PPSM" (by simp [prepFields])
  have hS : "SHP_IDX" ∈ bl.fields := h "SHP_IDX" (by simp [prepFields])
  have hI : "IMPERV_MEAN" ∈ bl.fields := h "IMPERV_MEAN" (by simp [prepFields])
  have hI2 : "IMPERV20_MEAN" ∈ bl.fields := h "IMPERV20_MEAN" (by simp [prepFields])
  simp [PrepBlocks, hP, hA, hD, hS, hI, hI2]

/-- Witness for prepBlocks_noop on a feature class carrying all six derived
fields. -/
theorem prepBlocks_noop_witness :
    (∀ f ∈ prepFields, f ∈ (FC.mk prepFields []).fields) ∧
    (PrepBlocks (FC.mk prepFields []) (FC.mk ["GISJOIN", "OBJECTID", "POP"] []) 2010).1 =
      FC.mk prepFields [] :=
  ⟨by decide, prepBlocks_noop (FC.mk prepFields [])
    (FC.mk ["GISJOIN", "OBJECTID", "POP"] []) 2010 (by decide)⟩

/-- Witness for catCores_classification on a one-row cores table at the
population boundary 2500. -/
theorem catCores_classification_witness :
    (CoreRec.mk 1 2500 1 (some 2)) ∈ CategorizeCores [CoreRec.mk 1 2500 1 none] ∧
    ∃ c ∈ [CoreRec.mk 1 2500 1 none],
      (CoreRec.mk 1 2500 1 (some 2)).POP = c.POP ∧
      (CoreRec.mk 1 2500 1 (some 2)).AREA_SQMI = c.AREA_SQMI ∧
      (CoreRec.mk 1 2500 1 (some 2)).CORE_TYPE = some (catCores c.POP c.AREA_SQMI) := by
  have hm : (CoreRec.mk 1 2500 1 (some 2)) ∈ CategorizeCores [CoreRec.mk 1 2500 1 none] := by
    decide
  exact ⟨hm, catCores_classification.1 [CoreRec.mk 1 2500 1 none] _ hm⟩

/-- Witness for secondaryBlocks_expansion_criteria: a selection pass over the
one-block example keeps the selected block, which is expansion eligible. -/
theorem secondaryBlocks_expansion_criteria_witness :
    exSq ∈ selStep (secondaryBlocks exOne) [exSq].toFinset ∧
    (exSq ∈ [exSq].toFinset ∨ expPred exSq) := by
  have hm : exSq ∈ selStep (secondaryBlocks exOne) [exSq].toFinset := by decide
  exact ⟨hm, secondaryBlocks_expansion_criteria.2.1 exOne [exSq].toFinset exSq hm⟩
